import Mathlib

/-!
Verification of the expense aggregation and reporting engine of a personal
finance tracker.  The definitions below are a shallow embedding of the
TypeScript source: currency amounts are modelled as exact rationals,
JavaScript dates as structured calendar dates, and floating-point division
by zero (which yields NaN or ±Infinity in JavaScript) is modelled by an
`Option` whose `none` stands for the non-finite result.  Display strings
that interpolate `toFixed`-formatted numbers are abstracted (they carry no
aggregation semantics); every branch condition, threshold and arithmetic
expression follows the source.
-/

/-- Calendar date as obtained from a parsed expense date
(`getFullYear` / `getMonth` / `getDate`); `month` is 0-based as in
JavaScript. -/
structure CalDate where
  year : Int
  month : Nat
  day : Nat
  deriving DecidableEq, Repr

/-- A timestamp as stored in the tip cache (`toISOString`): a calendar
date plus a time-of-day component, the latter abstracted to a number
since only the calendar-date part is ever compared. -/
structure Timestamp where
  date : CalDate
  timeOfDay : Nat
  deriving DecidableEq, Repr

/-- Expense category (`expense.category`). -/
structure Category where
  id : String
  name : String
  deriving DecidableEq, Repr

/-- An expense record as consumed by the aggregation code; `amount` is an
exact rational modelling the JavaScript number. -/
structure Expense where
  id : String
  comment : String
  amount : ℚ
  category : Category
  date : CalDate
  deriving DecidableEq, Repr

/-- Sum of the amounts of a list of expenses
(`reduce((sum, e) => sum + e.amount, 0)`). -/
def sumAmounts (l : List Expense) : ℚ :=
  (l.map Expense.amount).sum

/-- Category display name used by the monthly page: the or-default on
`expense.category?.name`, so a missing or empty name falls back to the
literal `Uncategorized`. -/
def catName (e : Expense) : String :=
  if e.category.name = "" then "Uncategorized" else e.category.name

/-- JavaScript division, with `none` standing for the non-finite
result (NaN or ±Infinity) that float division by zero produces. -/
def jsDiv (a b : ℚ) : Option ℚ :=
  if b = 0 then none else some (a / b)

/-- The percentage computation `part / total * 100` as the source writes
it, through JavaScript division. -/
def percentageOf (part total : ℚ) : Option ℚ :=
  (jsDiv part total).map (fun q => q * 100)

section Keys

variable {α κ : Type} [DecidableEq κ]

/-- Insert a key at the end of an accumulator unless already present:
the insertion-order key collection of a JavaScript object literal. -/
def insKey (acc : List κ) (k : κ) : List κ :=
  if k ∈ acc then acc else acc ++ [k]

/-- First-occurrence-ordered list of the distinct keys of `l` under `f`:
the order of `Object.entries` for an object populated by one pass over
the list. -/
def keysOf (f : α → κ) (l : List α) : List κ :=
  l.foldl (fun acc a => insKey acc (f a)) []

theorem mem_insKey (acc : List κ) (k x : κ) :
    x ∈ insKey acc k ↔ x ∈ acc ∨ x = k := by
  unfold insKey
  split
  · rename_i h
    constructor
    · exact fun hx => Or.inl hx
    · rintro (hx | rfl)
      · exact hx
      · exact h
  · simp

theorem nodup_insKey (acc : List κ) (k : κ) (h : acc.Nodup) :
    (insKey acc k).Nodup := by
  unfold insKey
  split
  · exact h
  · rename_i hk
    simp [List.nodup_append, h, hk]

theorem mem_foldl_insKey (f : α → κ) :
    ∀ (l : List α) (acc : List κ) (x : κ),
      x ∈ l.foldl (fun acc a => insKey acc (f a)) acc ↔
        x ∈ acc ∨ ∃ a ∈ l, f a = x := by
  intro l
  induction l with
  | nil => simp
  | cons a l ih =>
    intro acc x
    rw [List.foldl_cons, ih, mem_insKey]
    constructor
    · rintro ((hx | rfl) | ⟨b, hb, rfl⟩)
      · exact Or.inl hx
      · exact Or.inr ⟨a, by simp⟩
      · exact Or.inr ⟨b, by simp [hb]⟩
    · rintro (hx | ⟨b, hb, rfl⟩)
      · exact Or.inl (Or.inl hx)
      · rcases List.mem_cons.mp hb with rfl | hb
        · exact Or.inl (Or.inr rfl)
        · exact Or.inr ⟨b, hb, rfl⟩

theorem nodup_foldl_insKey (f : α → κ) :
    ∀ (l : List α) (acc : List κ), acc.Nodup →
      (l.foldl (fun acc a => insKey acc (f a)) acc).Nodup := by
  intro l
  induction l with
  | nil => exact fun acc h => h
  | cons a l ih =>
    intro acc h
    exact ih _ (nodup_insKey _ _ h)

theorem mem_keysOf (f : α → κ) (l : List α) (x : κ) :
    x ∈ keysOf f l ↔ ∃ a ∈ l, f a = x := by
  rw [keysOf, mem_foldl_insKey]
  simp

theorem nodup_keysOf (f : α → κ) (l : List α) : (keysOf f l).Nodup :=
  nodup_foldl_insKey f l [] List.nodup_nil

end Keys

/-! ## Heuristic insight generator (`analyzeSpendingPatterns`) -/

/-- Tip kind (`type` field of `AITip`). -/
inductive TipType
  | insight
  | warning
  | opportunity
  | achievement
  deriving DecidableEq, Repr

/-- Tip impact level. -/
inductive Impact
  | high
  | medium
  | low
  deriving DecidableEq, Repr

/-- A generated tip (`AITip`); the display-only `title` and `message`
strings are carried but their `toFixed` number formatting is abstracted
by `toString` on the exact rational. -/
structure AITip where
  id : String
  type : TipType
  title : String
  message : String
  impact : Impact
  actionable : Bool
  category : Option String := none
  savings : Option ℚ := none
  deriving DecidableEq, Repr

/-- Numeric rank used by the sort comparator: the `impactOrder` object
mapping `high` to 3, `medium` to 2 and `low` to 1. -/
def impactOrder : Impact → Nat
  | .high => 3
  | .medium => 2
  | .low => 1

/-- Membership of an expense in the month bucket of year `y`, month `m`
(`getMonth() === m && getFullYear() === y`). -/
def inMonth (y : Int) (m : Nat) (e : Expense) : Bool :=
  e.date.month = m && e.date.year = y

/-- Expenses falling in the month of `now`. -/
def currentMonthExpenses (es : List Expense) (now : CalDate) : List Expense :=
  es.filter (inMonth now.year now.month)

/-- The 0-based month preceding month `m`
(`currentMonth === 0 ? 11 : currentMonth - 1`). -/
def prevMonth (m : Nat) : Nat :=
  if m = 0 then 11 else m - 1

/-- The year of the month preceding `now`
(`currentMonth === 0 ? currentYear - 1 : currentYear`). -/
def prevYear (now : CalDate) : Int :=
  if now.month = 0 then now.year - 1 else now.year

/-- Expenses falling in the month preceding the month of `now`. -/
def previousMonthExpenses (es : List Expense) (now : CalDate) : List Expense :=
  es.filter (inMonth (prevYear now) (prevMonth now.month))

/-- Per-category amounts of the current-month expenses, in first-occurrence
order (the `categoryTotals` object, read back via `Object.entries`).  The
analyzer uses the raw `expense.category.name`. -/
def categoryAmounts (l : List Expense) : List (String × ℚ) :=
  (keysOf (fun e => e.category.name) l).map
    (fun k => (k, sumAmounts (l.filter (fun e => e.category.name = k))))

/-- The reduce that finds the highest-spending category, starting from
an empty category name with amount 0 and replacing the accumulator only
on a strictly larger amount. -/
def highestCategory (l : List Expense) : String × ℚ :=
  (categoryAmounts l).foldl (fun max p => if p.2 > max.2 then p else max) ("", 0)

/-- Rule 1: highest-spending-category insight, emitted when the winning
amount is strictly positive. -/
def highestCategoryTip (l : List Expense) : Option AITip :=
  let hc := highestCategory l
  if hc.2 > 0 then
    some { id := "highest-category"
           type := .insight
           title := hc.1 ++ " leads your spending"
           message := "$" ++ toString hc.2 ++ " spent on " ++ hc.1 ++
             " this month. Consider if this aligns with your financial priorities."
           impact := .medium
           actionable := true
           category := some hc.1 }
  else none

/-- The month-over-month percentage change
(`(currentMonthTotal - previousMonthTotal) / previousMonthTotal * 100`). -/
def pctChange (currentTotal previousTotal : ℚ) : ℚ :=
  (currentTotal - previousTotal) / previousTotal * 100

/-- Rule 2: month-over-month comparison tip; guarded by
`previousMonthTotal > 0`, emitted when `|percentageChange| > 10`. -/
def monthComparisonTip (currentTotal previousTotal : ℚ) : Option AITip :=
  if previousTotal > 0 then
    if |pctChange currentTotal previousTotal| > 10 then
      some { id := "month-comparison"
             type := if pctChange currentTotal previousTotal > 0 then .warning
                     else .achievement
             title := (if pctChange currentTotal previousTotal > 0 then
                 "Spending increased" else "Spending decreased") ++ " by " ++
               toString |pctChange currentTotal previousTotal| ++ "%"
             message := "Compared to last month, you have a change of $" ++
               toString |currentTotal - previousTotal| ++ "."
             impact := if |pctChange currentTotal previousTotal| > 25 then .high
                       else .medium
             actionable := pctChange currentTotal previousTotal > 0
             savings := if pctChange currentTotal previousTotal < 0 then
                 some |currentTotal - previousTotal| else none }
    else none
  else none

/-- Rule 3: frequent-small-purchases opportunity; fires when strictly more
than 10 current-month purchases of amount strictly below 10 sum to strictly
more than 30, with savings a quarter of that sum rounded to the nearest
integer (`Math.round(smallPurchasesTotal * 0.25)`). -/
def smallPurchasesTip (l : List Expense) : Option AITip :=
  let small := l.filter (fun e => e.amount < 10)
  let total := sumAmounts small
  if small.length > 10 ∧ total > 30 then
    some { id := "small-purchases"
           type := .opportunity
           title := "Small purchases adding up"
           message := toString small.length ++ " purchases under $10 totaled $" ++
             toString total ++ ". Tracking these could reveal savings opportunities."
           impact := .medium
           actionable := true
           savings := some ((round (total * (0.25 : ℚ)) : ℤ) : ℚ) }
  else none

/-- The tips in the order the three rules push them. -/
def rawTips (es : List Expense) (now : CalDate) : List AITip :=
  (highestCategoryTip (currentMonthExpenses es now)).toList ++
    (monthComparisonTip (sumAmounts (currentMonthExpenses es now))
      (sumAmounts (previousMonthExpenses es now))).toList ++
    (smallPurchasesTip (currentMonthExpenses es now)).toList

/-- Stable descending insertion by impact rank: the inserted tip passes
every strictly higher-ranked tip and stops before the first tip of equal
or lower rank, so earlier tips of equal rank stay in front. -/
def insertDesc (t : AITip) : List AITip → List AITip
  | [] => [t]
  | h :: rest =>
    if impactOrder t.impact < impactOrder h.impact then h :: insertDesc t rest
    else t :: h :: rest

/-- Stable sort of the tips by descending impact rank, modelling the
(stable) `Array.prototype.sort` with comparator
`impactOrder[b.impact] - impactOrder[a.impact]`. -/
def sortTipsDesc (l : List AITip) : List AITip :=
  l.foldr insertDesc []

/-- The fallback analyzer: collect the rule tips, sort by impact
(descending, stable), and truncate to at most 3 (`slice(0, 3)`). -/
def analyzeSpendingPatterns (es : List Expense) (now : CalDate) : List AITip :=
  (sortTipsDesc (rawTips es now)).take 3

/-! ## Tip cache and the POST handler -/

/-- The module-level tip cache entry. -/
structure CachedTips where
  tips : List AITip
  generatedDate : Timestamp
  expenseCount : Nat
  deriving DecidableEq, Repr

/-- Staleness check: regenerate when the cache is empty, when today's
calendar date differs from the cached generation date (`toDateString`
comparison), or when the expense count drifted by strictly more than 5
(`Math.abs(expenses.length - dailyTipsCache.expenseCount) > 5`). -/
def shouldRegenerateTips (cache : Option CachedTips) (expenses : List Expense)
    (today : CalDate) : Bool :=
  match cache with
  | none => true
  | some c =>
    !(today = c.generatedDate.date : Bool) ||
      (((expenses.length : ℤ) - (c.expenseCount : ℤ)).natAbs > 5 : Bool)

/-- The JSON body of a successful `POST /api/...tips` response (the
`aiEnabled` flag, a pure environment probe, is omitted). -/
structure TipsResponse where
  tips : List AITip
  timestamp : Timestamp
  expenseCount : Nat
  cached : Bool
  deriving DecidableEq, Repr

/-- The POST handler on a valid request body, on the heuristic-fallback
path (no AI credential): serve the cached tips with the cached generation
timestamp when the cache is fresh, otherwise regenerate, respond, and
overwrite the cache.  In both paths `expenseCount` is the length of the
request's expense list. -/
def handlePost (cache : Option CachedTips) (expenses : List Expense)
    (now : Timestamp) : TipsResponse × Option CachedTips :=
  match cache, shouldRegenerateTips cache expenses now.date with
  | some c, false =>
    ({ tips := c.tips, timestamp := c.generatedDate,
       expenseCount := expenses.length, cached := true }, some c)
  | _, _ =>
    let tips := analyzeSpendingPatterns expenses now.date
    ({ tips := tips, timestamp := now,
       expenseCount := expenses.length, cached := false },
     some { tips := tips, generatedDate := now, expenseCount := expenses.length })

/-! ## Month bucketing and category breakdown (monthly page) -/

/-- Month-bucket key of an expense, the structured form of the
`"YYYY-MM"` key built from `getFullYear()` and `getMonth() + 1`. -/
def monthKey (e : Expense) : Int × Nat :=
  (e.date.year, e.date.month)

/-- The distinct month keys of an expense list, in first-appearance
order. -/
def monthKeys (es : List Expense) : List (Int × Nat) :=
  keysOf monthKey es

/-- The month bucket of key `k`: the expenses whose date falls in that
month. -/
def monthBucket (es : List Expense) (k : Int × Nat) : List Expense :=
  es.filter (fun e => monthKey e = k)

/-- Total amount of a single category inside a bucket. -/
def categoryTotal (l : List Expense) (c : String) : ℚ :=
  sumAmounts (l.filter (fun e => catName e = c))

/-- One row of the monthly page's category summary. -/
structure CategorySummary where
  name : String
  total : ℚ
  count : Nat
  percentage : Option ℚ
  deriving DecidableEq, Repr

/-- The category summary the monthly page derives for a bucket:
per-category name, total, count, and `(data.total / bucketTotal) * 100`
through JavaScript division (no zero-total guard in the source).  The
page additionally sorts the rows descending by total; no claim concerns
that order, so it is left in key order here. -/
def categorySummaryOf (l : List Expense) : List CategorySummary :=
  (keysOf catName l).map fun c =>
    { name := c
      total := categoryTotal l c
      count := (l.filter (fun e => catName e = c)).length
      percentage := percentageOf (categoryTotal l c) (sumAmounts l) }

/-- The business-exclusion recomputation of a category percentage
(`totalWithoutBusiness > 0 ? amount / totalWithoutBusiness * 100 : 0`),
the one percentage computation in the source that does guard against a
zero total. -/
def nonBusinessPercentage (amount totalWithoutBusiness : ℚ) : ℚ :=
  if totalWithoutBusiness > 0 then amount / totalWithoutBusiness * 100 else 0

/-! ## The monthly page's month-over-month figure -/

/-- Descending order on month keys, matching the page's sort of the
`"YYYY-MM"` strings by `b.localeCompare(a)`: `a` may stay before `b`
exactly when `a` is the later (or equal) month. -/
def keyDescBle (a b : Int × Nat) : Bool :=
  b.1 < a.1 || (b.1 = a.1 && b.2 ≤ a.2)

/-- Insertion into a list sorted by `keyDescBle`. -/
def insertKeyDesc (k : Int × Nat) : List (Int × Nat) → List (Int × Nat)
  | [] => [k]
  | h :: t => if keyDescBle h k then h :: insertKeyDesc k t else k :: h :: t

/-- The page's `sortedMonthKeys`: the distinct month keys, most recent
first. -/
def sortedMonthKeys (es : List Expense) : List (Int × Nat) :=
  (monthKeys es).foldr insertKeyDesc []

/-- JavaScript `indexOf`: the first index of `x`, or `-1` when absent. -/
def jsIndexOf (l : List (Int × Nat)) (x : Int × Nat) : Int :=
  if x ∈ l then (l.indexOf x : Int) else -1

/-- The page's `getPreviousMonthData` key lookup: the month key one
position after the selected one in the descending key list, when the
selected one is not the last. -/
def getPreviousMonthKey (es : List Expense) (sel : Int × Nat) :
    Option (Int × Nat) :=
  let keys := sortedMonthKeys es
  let i := jsIndexOf keys sel
  if i < (keys.length : Int) - 1 then keys.get? (i + 1).toNat else none

/-- The "% vs last month" figure of the monthly page: rendered whenever a
previous month bucket exists, as
`(currentMonthData.total - previousMonthData.total) / previousMonthData.total * 100`
through JavaScript division.  The outer `none` means nothing is rendered;
`some none` means the rendered figure is the non-finite result of dividing
by a zero previous total. -/
def pageComparison (es : List Expense) (sel : Int × Nat) : Option (Option ℚ) :=
  match getPreviousMonthKey es sel with
  | none => none
  | some pk =>
    some ((jsDiv (sumAmounts (monthBucket es sel) - sumAmounts (monthBucket es pk))
      (sumAmounts (monthBucket es pk))).map (fun q => q * 100))

/-! ## Current-week chart week start -/

/-- Day-of-week of an abstract day index (days since 1970-01-01, which
was a Thursday), with JavaScript's `getDay` convention
(0 = Sunday, ..., 6 = Saturday). -/
def jsWeekday (d : ℤ) : ℤ :=
  (d + 4) % 7

/-- Days subtracted from today to reach the week start: none on a Monday,
6 on a Sunday, `dayOfWeek - 1` otherwise. -/
def daysToSubtract (w : ℤ) : ℤ :=
  if w = 1 then 0 else if w = 0 then 6 else w - 1

/-- The start of the current week as the chart computes it. -/
def weekStart (today : ℤ) : ℤ :=
  today - daysToSubtract (jsWeekday today)

/-- The 7 consecutive days the chart generates from the week start
(the loop pushing `weekStart + i` for `i = 0, ..., 6`). -/
def weekDays (start : ℤ) : List ℤ :=
  [start, start + 1, start + 2, start + 3, start + 4, start + 5, start + 6]

/-! ## Partition lemmas for keyed grouping -/

section Partition

variable {α κ M : Type} [DecidableEq κ] [AddCommMonoid M]

theorem sum_ite_zero_of_not_mem (c : M) (x : κ) :
    ∀ keys : List κ, x ∉ keys →
      (keys.map (fun k => if x = k then c else 0)).sum = 0 := by
  intro keys
  induction keys with
  | nil => simp
  | cons y t ih =>
    intro hx
    have hxy : x ≠ y := fun h => hx (h ▸ List.mem_cons_self y t)
    have hxt : x ∉ t := fun h => hx (List.mem_cons_of_mem y h)
    simp [hxy, ih hxt]

theorem sum_ite_single (c : M) (x : κ) :
    ∀ keys : List κ, keys.Nodup → x ∈ keys →
      (keys.map (fun k => if x = k then c else 0)).sum = c := by
  intro keys
  induction keys with
  | nil => simp
  | cons y t ih =>
    intro hnd hx
    rcases List.mem_cons.mp hx with rfl | hxt
    · have hxt : x ∉ t := (List.nodup_cons.mp hnd).1
      simp [sum_ite_zero_of_not_mem c x t hxt]
    · have hxy : x ≠ y := by
        rintro rfl
        exact (List.nodup_cons.mp hnd).1 hxt
      simp [hxy, ih (List.nodup_cons.mp hnd).2 hxt]

theorem sum_map_filter_partition (f : α → κ) (g : α → M) (keys : List κ)
    (hnd : keys.Nodup) :
    ∀ l : List α, (∀ a ∈ l, f a ∈ keys) →
      (keys.map (fun k => ((l.filter (fun a => f a = k)).map g).sum)).sum
        = (l.map g).sum := by
  intro l
  induction l with
  | nil => simp
  | cons a l ih =>
    intro hcov
    have hfa : f a ∈ keys := hcov a (List.mem_cons_self a l)
    have hl : ∀ b ∈ l, f b ∈ keys := fun b hb => hcov b (List.mem_cons_of_mem a hb)
    have hterm : ∀ k : κ,
        (((a :: l).filter (fun x => f x = k)).map g).sum
          = (if f a = k then g a else 0)
            + ((l.filter (fun x => f x = k)).map g).sum := by
      intro k
      by_cases h : f a = k <;> simp [List.filter_cons, h]
    calc (keys.map (fun k => (((a :: l).filter (fun x => f x = k)).map g).sum)).sum
        = (keys.map (fun k => (if f a = k then g a else 0)
            + ((l.filter (fun x => f x = k)).map g).sum)).sum := by
          rw [List.map_congr_left (fun k _ => hterm k)]
      _ = (keys.map (fun k => if f a = k then g a else 0)).sum
            + (keys.map (fun k => ((l.filter (fun x => f x = k)).map g).sum)).sum := by
          rw [← List.sum_map_add]
      _ = g a + (l.map g).sum := by
          rw [sum_ite_single (g a) (f a) keys hnd hfa, ih hl]
      _ = ((a :: l).map g).sum := by simp

theorem length_filter_eq_one (x : κ) :
    ∀ keys : List κ, keys.Nodup → x ∈ keys →
      (keys.filter (fun k => x = k)).length = 1 := by
  intro keys
  induction keys with
  | nil => simp
  | cons y t ih =>
    intro hnd hx
    rcases List.mem_cons.mp hx with rfl | hxt
    · have hxt : x ∉ t := (List.nodup_cons.mp hnd).1
      have : t.filter (fun k => x = k) = [] := by
        rw [List.filter_eq_nil_iff]
        intro b hb
        simp only [decide_eq_true_eq]
        rintro rfl
        exact hxt hb
      simp [List.filter_cons, this]
    · have hxy : x ≠ y := by
        rintro rfl
        exact (List.nodup_cons.mp hnd).1 hxt
      simp [List.filter_cons, hxy, ih (List.nodup_cons.mp hnd).2 hxt]

theorem sum_map_ones (l : List α) : (l.map (fun _ => (1 : ℕ))).sum = l.length := by
  induction l with
  | nil => rfl
  | cons a l ih => simp [ih, Nat.add_comm]

end Partition

/-- Membership in a month bucket is membership in the input with the
matching month key. -/
theorem mem_monthBucket (es : List Expense) (k : Int × Nat) (e : Expense) :
    e ∈ monthBucket es k ↔ e ∈ es ∧ monthKey e = k := by
  simp [monthBucket, List.mem_filter]

/-- C8: month bucketing partitions the input — the bucket sizes add up to
the input length, and every input record lies in exactly one month
bucket. -/
theorem monthBuckets_partition (es : List Expense) :
    ((monthKeys es).map (fun k => (monthBucket es k).length)).sum = es.length ∧
    ∀ e, e ∈ es →
      ((monthKeys es).filter (fun k => e ∈ monthBucket es k)).length = 1 := by
  constructor
  · have h := sum_map_filter_partition monthKey (fun _ => (1 : ℕ)) (monthKeys es)
      (nodup_keysOf monthKey es) es
      (fun a ha => (mem_keysOf monthKey es (monthKey a)).mpr ⟨a, ha, rfl⟩)
    calc ((monthKeys es).map (fun k => (monthBucket es k).length)).sum
        = ((monthKeys es).map
            (fun k => ((es.filter (fun a => monthKey a = k)).map
              (fun _ => (1 : ℕ))).sum)).sum := by
          refine congrArg List.sum (List.map_congr_left fun k _ => ?_)
          rw [sum_map_ones]
          rfl
      _ = (es.map (fun _ => (1 : ℕ))).sum := h
      _ = es.length := sum_map_ones es
  · intro e he
    have hk : monthKey e ∈ monthKeys es :=
      (mem_keysOf monthKey es (monthKey e)).mpr ⟨e, he, rfl⟩
    have hfe : (monthKeys es).filter (fun k => e ∈ monthBucket es k)
        = (monthKeys es).filter (fun k => monthKey e = k) := by
      refine List.filter_congr fun k _ => ?_
      simp only [decide_eq_decide]
      rw [mem_monthBucket]
      exact ⟨fun h => h.2, fun h => ⟨he, h⟩⟩
    rw [hfe]
    exact length_filter_eq_one (monthKey e) (monthKeys es)
      (nodup_keysOf monthKey es) hk

/-- Concrete expenses for instantiating the partition theorem. -/
def w8e1 : Expense := ⟨"a1", "", 5, ⟨"c1", "Food"⟩, ⟨2024, 0, 3⟩⟩

def w8e2 : Expense := ⟨"a2", "", 7, ⟨"c2", "Rent"⟩, ⟨2024, 1, 4⟩⟩

def w8e3 : Expense := ⟨"a3", "", 2, ⟨"c1", "Food"⟩, ⟨2024, 0, 9⟩⟩

def w8es : List Expense := [w8e1, w8e2, w8e3]

/-- C8 witness: the partition theorem evaluated on a concrete
three-expense list spanning two months. -/
theorem monthBuckets_partition_witness :
    ((monthKeys w8es).map (fun k => (monthBucket w8es k).length)).sum
        = w8es.length ∧
    ((monthKeys w8es).filter (fun k => w8e1 ∈ monthBucket w8es k)).length = 1 :=
  ⟨(monthBuckets_partition w8es).1,
    (monthBuckets_partition w8es).2 w8e1 (by simp [w8es])⟩

/-- Sum of the amounts of a filtered list, unfolded to the map-sum form
used by the partition lemma. -/
theorem categoryTotal_eq (l : List Expense) (c : String) :
    categoryTotal l c = ((l.filter (fun e => catName e = c)).map Expense.amount).sum :=
  rfl

/-- C7: within a month bucket, the category totals of the summary add up
to the bucket total, and — when the bucket total is nonzero — the
percentages add up to 100 (stated with the spec's 1e-6 tolerance; the
rational model makes both identities exact). -/
theorem categoryBreakdown_reconciles (es : List Expense) (k : Int × Nat)
    (_hk : k ∈ monthKeys es) :
    |((categorySummaryOf (monthBucket es k)).map CategorySummary.total).sum
        - sumAmounts (monthBucket es k)| ≤ 1 / 1000000 ∧
    (sumAmounts (monthBucket es k) ≠ 0 →
      |((categorySummaryOf (monthBucket es k)).map
          (fun s => s.percentage.getD 0)).sum - 100| ≤ 1 / 1000000) := by
  clear _hk
  set l := monthBucket es k with hl
  clear_value l
  have hcov : ∀ a ∈ l, catName a ∈ keysOf catName l :=
    fun a ha => (mem_keysOf catName l (catName a)).mpr ⟨a, ha, rfl⟩
  have htot : ((categorySummaryOf l).map CategorySummary.total).sum = sumAmounts l := by
    rw [categorySummaryOf, List.map_map]
    have := sum_map_filter_partition catName Expense.amount (keysOf catName l)
      (nodup_keysOf catName l) l hcov
    calc ((keysOf catName l).map (CategorySummary.total ∘ fun c =>
            { name := c, total := categoryTotal l c,
              count := (l.filter (fun e => catName e = c)).length,
              percentage := percentageOf (categoryTotal l c) (sumAmounts l)
              : CategorySummary })).sum
        = ((keysOf catName l).map (fun c =>
            ((l.filter (fun e => catName e = c)).map Expense.amount).sum)).sum := rfl
      _ = (l.map Expense.amount).sum := this
      _ = sumAmounts l := rfl
  refine ⟨by rw [htot]; norm_num, fun ht => ?_⟩
  have hperc : ((categorySummaryOf l).map (fun s => s.percentage.getD 0)).sum = 100 := by
    rw [categorySummaryOf, List.map_map]
    have hstep : ∀ c ∈ keysOf catName l,
        ((fun s => Option.getD s.percentage 0) ∘ fun c =>
          { name := c, total := categoryTotal l c,
            count := (l.filter (fun e => catName e = c)).length,
            percentage := percentageOf (categoryTotal l c) (sumAmounts l)
            : CategorySummary }) c
          = categoryTotal l c * (100 / sumAmounts l) := by
      intro c _
      simp only [Function.comp_apply, percentageOf, jsDiv, if_neg ht]
      show categoryTotal l c / sumAmounts l * 100
          = categoryTotal l c * (100 / sumAmounts l)
      ring
    rw [List.map_congr_left hstep, List.sum_map_mul_right]
    have : ((keysOf catName l).map (fun c => categoryTotal l c)).sum = sumAmounts l := by
      have := sum_map_filter_partition catName Expense.amount (keysOf catName l)
        (nodup_keysOf catName l) l hcov
      simpa [categoryTotal_eq] using this
    rw [this]
    field_simp
  rw [hperc]
  norm_num

/-- Concrete input for the reconciliation theorem: one month, two
categories. -/
def w7es : List Expense :=
  [⟨"b1", "", 5, ⟨"c1", "Food"⟩, ⟨2024, 3, 2⟩⟩,
   ⟨"b2", "", 15, ⟨"c2", "Rent"⟩, ⟨2024, 3, 9⟩⟩]

/-- C7 witness: the reconciliation theorem evaluated on a concrete
bucket with a nonzero total. -/
theorem categoryBreakdown_reconciles_witness :
    |((categorySummaryOf (monthBucket w7es (2024, 3))).map
        CategorySummary.total).sum - sumAmounts (monthBucket w7es (2024, 3))|
      ≤ 1 / 1000000 ∧
    |((categorySummaryOf (monthBucket w7es (2024, 3))).map
        (fun s => s.percentage.getD 0)).sum - 100| ≤ 1 / 1000000 := by
  have hk : ((2024 : Int), (3 : Nat)) ∈ monthKeys w7es :=
    (mem_keysOf monthKey w7es (2024, 3)).mpr
      ⟨⟨"b1", "", 5, ⟨"c1", "Food"⟩, ⟨2024, 3, 2⟩⟩, by simp [w7es], rfl⟩
  have h := categoryBreakdown_reconciles w7es (2024, 3) hk
  refine ⟨h.1, h.2 ?_⟩
  have : sumAmounts (monthBucket w7es (2024, 3)) = 20 := by
    simp [w7es, monthBucket, monthKey, List.filter, sumAmounts]
    norm_num
  rw [this]
  norm_num


/-! ## C5: cache staleness -/

/-- C5: an empty cache always regenerates; a populated cache is served
(no regeneration) exactly when today is the cached generation calendar
date and the expense count drifted by at most 5. -/
theorem shouldRegenerateTips_spec (cache : Option CachedTips)
    (es : List Expense) (today : CalDate) :
    (cache = none → shouldRegenerateTips cache es today = true) ∧
    ∀ c, cache = some c →
      (shouldRegenerateTips cache es today = false ↔
        (today = c.generatedDate.date ∧
          ((es.length : ℤ) - (c.expenseCount : ℤ)).natAbs ≤ 5)) := by
  constructor
  · rintro rfl
    rfl
  · rintro c rfl
    simp only [shouldRegenerateTips, Bool.or_eq_false_iff, Bool.not_eq_false',
      decide_eq_true_eq, decide_eq_false_iff_not, not_lt]

/-- A cache entry generated on 2024-05-10 with 10 expenses recorded. -/
def w5cache : CachedTips := ⟨[], ⟨⟨2024, 4, 10⟩, 0⟩, 10⟩

/-- C5 witness: same day, count drift 2 ≤ 5 — the cache is served. -/
theorem shouldRegenerateTips_spec_witness :
    shouldRegenerateTips (some w5cache) (List.replicate 12 w8e1) ⟨2024, 4, 10⟩
      = false := by
  refine ((shouldRegenerateTips_spec (some w5cache) (List.replicate 12 w8e1)
    ⟨2024, 4, 10⟩).2 w5cache rfl).mpr ⟨rfl, ?_⟩
  simp [w5cache]

/-! ## C3: the month-over-month rule -/

/-- C3: with a positive previous-month total, the comparison rule fires
exactly when the percentage change exceeds 10 in absolute value; the tip
warns on an increase and celebrates a decrease, is high-impact exactly
above 25 percent, is actionable exactly on an increase, and carries the
absolute saved amount exactly on a decrease. -/
theorem monthComparisonTip_spec (cur prev : List Expense)
    (hp : 0 < sumAmounts prev) :
    ((monthComparisonTip (sumAmounts cur) (sumAmounts prev)).isSome ↔
      10 < |pctChange (sumAmounts cur) (sumAmounts prev)|) ∧
    ∀ t, monthComparisonTip (sumAmounts cur) (sumAmounts prev) = some t →
      (t.type = if sumAmounts prev < sumAmounts cur then TipType.warning
        else TipType.achievement) ∧
      (t.impact = if 25 < |pctChange (sumAmounts cur) (sumAmounts prev)|
        then Impact.high else Impact.medium) ∧
      (t.actionable = true ↔ sumAmounts prev < sumAmounts cur) ∧
      (t.savings = if sumAmounts cur < sumAmounts prev
        then some |sumAmounts cur - sumAmounts prev| else none) := by
  set C := sumAmounts cur with hC
  set P := sumAmounts prev with hP
  clear_value C P
  have hinv : (0 : ℚ) < 100 / P := by positivity
  have hmul : pctChange C P = (C - P) * (100 / P) := by
    rw [pctChange]; ring
  have hsignPos : 0 < pctChange C P ↔ P < C := by
    rw [hmul]
    constructor
    · intro h
      by_contra hx
      push_neg at hx
      have hle : C - P ≤ 0 := by linarith
      nlinarith
    · intro h
      have : 0 < C - P := by linarith
      positivity
  have hsignNeg : pctChange C P < 0 ↔ C < P := by
    rw [hmul]
    constructor
    · intro h
      by_contra hx
      push_neg at hx
      have hle : 0 ≤ C - P := by linarith
      nlinarith
    · intro h
      have h1 : C - P < 0 := by linarith
      nlinarith
  constructor
  · simp only [monthComparisonTip, if_pos hp]
    by_cases h10 : 10 < |pctChange C P| <;> simp [h10]
  · intro t ht
    simp only [monthComparisonTip, if_pos hp] at ht
    by_cases h10 : 10 < |pctChange C P|
    · rw [if_pos h10] at ht
      injection ht with ht
      subst ht
      refine ⟨if_congr hsignPos rfl rfl, rfl, ?_, if_congr hsignNeg rfl rfl⟩
      simp [hsignPos]
    · rw [if_neg h10] at ht
      exact absurd ht (by simp)

/-- Current month: a single 150 expense. -/
def w3cur : List Expense := [⟨"m1", "", 150, ⟨"c1", "Food"⟩, ⟨2024, 4, 2⟩⟩]

/-- Previous month: a single 100 expense. -/
def w3prev : List Expense := [⟨"m2", "", 100, ⟨"c1", "Food"⟩, ⟨2024, 3, 2⟩⟩]

/-- C3 witness: totals 150 vs 100 give a 50 percent change, hence a
high-impact actionable warning with no savings field. -/
theorem monthComparisonTip_spec_witness :
    ∃ t, monthComparisonTip (sumAmounts w3cur) (sumAmounts w3prev) = some t ∧
      t.type = TipType.warning ∧ t.impact = Impact.high ∧
      t.actionable = true ∧ t.savings = none := by
  have hcur : sumAmounts w3cur = 150 := by simp [sumAmounts, w3cur]
  have hprev : sumAmounts w3prev = 100 := by simp [sumAmounts, w3prev]
  have hpct : pctChange (sumAmounts w3cur) (sumAmounts w3prev) = 50 := by
    rw [hcur, hprev, pctChange]
    norm_num
  have h := monthComparisonTip_spec w3cur w3prev (by rw [hprev]; norm_num)
  have hsome : (monthComparisonTip (sumAmounts w3cur) (sumAmounts w3prev)).isSome := by
    rw [h.1, hpct]
    norm_num
  obtain ⟨t, ht⟩ := Option.isSome_iff_exists.mp hsome
  obtain ⟨hty, him, hact, hsav⟩ := h.2 t ht
  refine ⟨t, ht, ?_, ?_, ?_, ?_⟩
  · rw [hty, if_pos (by rw [hcur, hprev]; norm_num)]
  · rw [him, if_pos (by rw [hpct]; norm_num)]
  · exact hact.mpr (by rw [hcur, hprev]; norm_num)
  · rw [hsav, if_neg (by rw [hcur, hprev]; norm_num)]

/-! ## C4: the small-purchases rule -/

/-- C4: the small-purchases rule looks at the current-month records of
amount strictly below 10, fires exactly when there are strictly more than
10 of them summing to strictly more than 30, and then yields an
actionable medium-impact opportunity whose savings are a quarter of that
sum rounded to the nearest integer. -/
theorem smallPurchasesTip_spec (l : List Expense) :
    ((smallPurchasesTip l).isSome ↔
      10 < (l.filter (fun e => e.amount < 10)).length ∧
        30 < sumAmounts (l.filter (fun e => e.amount < 10))) ∧
    ∀ t, smallPurchasesTip l = some t →
      t.type = TipType.opportunity ∧ t.impact = Impact.medium ∧
        t.actionable = true ∧
        t.savings = some ((round (sumAmounts (l.filter (fun e => e.amount < 10))
          * (0.25 : ℚ)) : ℤ) : ℚ) := by
  constructor
  · simp only [smallPurchasesTip]
    by_cases h : 10 < (l.filter (fun e => e.amount < 10)).length ∧
        30 < sumAmounts (l.filter (fun e => e.amount < 10)) <;>
      simp [h]
  · intro t ht
    simp only [smallPurchasesTip] at ht
    split at ht
    · injection ht with ht
      subst ht
      exact ⟨rfl, rfl, rfl, rfl⟩
    · exact absurd ht (by simp)

/-- Eleven current-month purchases of amount 3 each. -/
def w4elevens : List Expense :=
  List.replicate 11 ⟨"p", "", 3, ⟨"c3", "Coffee"⟩, ⟨2024, 4, 1⟩⟩

/-- Ten current-month purchases of amount 3 each. -/
def w4tens : List Expense :=
  List.replicate 10 ⟨"p", "", 3, ⟨"c3", "Coffee"⟩, ⟨2024, 4, 1⟩⟩

theorem w4_filter_elevens :
    w4elevens.filter (fun e => e.amount < 10) = w4elevens := by
  rw [List.filter_eq_self]
  intro e he
  simp only [w4elevens] at he
  rw [List.eq_of_mem_replicate he]
  simp only [decide_eq_true_eq]
  norm_num

theorem w4_filter_tens :
    w4tens.filter (fun e => e.amount < 10) = w4tens := by
  rw [List.filter_eq_self]
  intro e he
  simp only [w4tens] at he
  rw [List.eq_of_mem_replicate he]
  simp only [decide_eq_true_eq]
  norm_num

theorem w4_sum_elevens : sumAmounts w4elevens = 33 := by
  show sumAmounts (List.replicate 11 ⟨"p", "", 3, ⟨"c3", "Coffee"⟩, ⟨2024, 4, 1⟩⟩) = 33
  rw [sumAmounts, List.map_replicate, List.sum_replicate]
  norm_num [nsmul_eq_mul]

/-- C4 witness: eleven purchases of 3 fire the rule with savings
`round 8.25 = 8`; ten such purchases do not fire it. -/
theorem smallPurchasesTip_spec_witness :
    (∃ t, smallPurchasesTip w4elevens = some t ∧ t.savings = some 8) ∧
      smallPurchasesTip w4tens = none := by
  have h := smallPurchasesTip_spec w4elevens
  have hsome : (smallPurchasesTip w4elevens).isSome := by
    rw [h.1, w4_filter_elevens, w4_sum_elevens]
    refine ⟨?_, by norm_num⟩
    rw [show w4elevens.length = 11 from rfl]
    norm_num
  obtain ⟨t, ht⟩ := Option.isSome_iff_exists.mp hsome
  obtain ⟨-, -, -, hsav⟩ := h.2 t ht
  refine ⟨⟨t, ht, ?_⟩, ?_⟩
  · rw [hsav, w4_filter_elevens, w4_sum_elevens]
    have hr : round ((33 : ℚ) * (0.25 : ℚ)) = 8 := by
      rw [round_eq, show (33 : ℚ) * 0.25 + 1 / 2 = 35 / 4 by norm_num]
      norm_num [Int.floor_eq_iff]
    rw [hr]
    norm_num
  · have h10 := smallPurchasesTip_spec w4tens
    rw [← Option.not_isSome_iff_eq_none, h10.1, w4_filter_tens]
    rintro ⟨hlen, -⟩
    rw [show w4tens.length = 10 from rfl] at hlen
    exact absurd hlen (by norm_num)

/-! ## C2: category percentages and division by zero -/

/-- A bucket holding a single zero-amount expense: its total is 0. -/
def cexBucket : List Expense := [⟨"z1", "", 0, ⟨"c1", "Food"⟩, ⟨2024, 2, 5⟩⟩]

/-- C2 counterexample: on a bucket with total 0 the category percentage
is the non-finite result of dividing by zero (modelled `none`), not the
claimed 0. -/
theorem categorySummary_percentage_cex :
    sumAmounts cexBucket = 0 ∧
    (categorySummaryOf cexBucket).map CategorySummary.percentage = [none] := by
  constructor
  · simp [sumAmounts, cexBucket]
  · have h0 : sumAmounts cexBucket = 0 := by simp [sumAmounts, cexBucket]
    have hkeys : keysOf catName cexBucket = ["Food"] := by
      simp [keysOf, insKey, catName, cexBucket]
    simp only [categorySummaryOf, hkeys, List.map_cons, List.map_nil]
    simp [percentageOf, jsDiv, h0]

/-- C2 amended: a category percentage of the summary equals
total-over-bucket-total times 100 whenever the bucket total is nonzero;
when the bucket total is 0 the computation surfaces the non-finite
division-by-zero value instead of 0.  Only the business-exclusion
recomputation defaults a zero-total percentage to 0. -/
theorem categorySummary_percentage_amended (l : List Expense)
    (s : CategorySummary) (hs : s ∈ categorySummaryOf l) :
    (sumAmounts l ≠ 0 → s.percentage = some (s.total / sumAmounts l * 100)) ∧
    (sumAmounts l = 0 → s.percentage = none) ∧
    ∀ a : ℚ, nonBusinessPercentage a 0 = 0 := by
  obtain ⟨c, hc, rfl⟩ := List.mem_map.mp hs
  refine ⟨fun ht => ?_, fun ht => ?_, fun a => ?_⟩
  · simp [percentageOf, jsDiv, ht]
  · simp [percentageOf, jsDiv, ht]
  · simp [nonBusinessPercentage]

/-- C2 witness: on a concrete two-category bucket with total 20, the
amended statement yields the finite percentage for the Food row. -/
theorem categorySummary_percentage_amended_witness :
    ∃ s ∈ categorySummaryOf w7es,
      s.percentage = some (s.total / sumAmounts w7es * 100) := by
  have hkey : "Food" ∈ keysOf catName w7es := by
    refine (mem_keysOf catName w7es "Food").mpr
      ⟨⟨"b1", "", 5, ⟨"c1", "Food"⟩, ⟨2024, 3, 2⟩⟩, by simp [w7es], ?_⟩
    simp [catName]
  obtain ⟨s, hsmem⟩ : ∃ s, s ∈ categorySummaryOf w7es :=
    ⟨_, List.mem_map_of_mem _ hkey⟩
  refine ⟨s, hsmem, (categorySummary_percentage_amended w7es s hsmem).1 ?_⟩
  rw [show sumAmounts w7es = 20 by simp [sumAmounts, w7es]; norm_num]
  norm_num

/-! ## C6: period-over-period comparison guards -/

/-- Expenses spanning two months whose earlier month has total 0. -/
def c6es : List Expense :=
  [⟨"n1", "", 5, ⟨"c1", "Food"⟩, ⟨2024, 1, 3⟩⟩,
   ⟨"n0", "", 0, ⟨"c1", "Food"⟩, ⟨2024, 0, 3⟩⟩]

/-- C6 counterexample: the monthly page renders a month-over-month figure
as soon as a previous month bucket exists — here that bucket's total is
0, so a comparison is produced and it is the non-finite result of
division by zero, contradicting the claimed `previous total > 0` guard. -/
theorem pageComparison_zero_prev_cex :
    sumAmounts (monthBucket c6es (2024, 0)) = 0 ∧
    getPreviousMonthKey c6es (2024, 1) = some (2024, 0) ∧
    pageComparison c6es (2024, 1) = some none := by
  have h0 : sumAmounts (monthBucket c6es (2024, 0)) = 0 := by
    simp [monthBucket, monthKey, sumAmounts, c6es]
  have h2 : getPreviousMonthKey c6es (2024, 1) = some (2024, 0) := rfl
  refine ⟨h0, h2, ?_⟩
  simp [pageComparison, h2, jsDiv, h0]

/-- C6 amended: the heuristic analyzer's comparison really is produced
only for a positive previous total; the monthly page's comparison is
produced whenever a previous month bucket exists — the finite formula
value when that bucket's total is nonzero, and the non-finite
division-by-zero value when that total is 0. -/
theorem comparison_guard_amended (ct pt : ℚ) (es : List Expense)
    (sel pk : Int × Nat) :
    (pt ≤ 0 → monthComparisonTip ct pt = none) ∧
    (getPreviousMonthKey es sel = none → pageComparison es sel = none) ∧
    (getPreviousMonthKey es sel = some pk →
      sumAmounts (monthBucket es pk) ≠ 0 →
      pageComparison es sel = some (some ((sumAmounts (monthBucket es sel)
          - sumAmounts (monthBucket es pk))
        / sumAmounts (monthBucket es pk) * 100))) ∧
    (getPreviousMonthKey es sel = some pk →
      sumAmounts (monthBucket es pk) = 0 →
      pageComparison es sel = some none) := by
  refine ⟨fun hpt => ?_, fun h => ?_, fun h hnz => ?_, fun h hz => ?_⟩
  · simp [monthComparisonTip, not_lt.mpr hpt]
  · simp [pageComparison, h]
  · simp [pageComparison, h, jsDiv, hnz]
  · simp [pageComparison, h, jsDiv, hz]

/-- Expenses spanning two months with totals 30 (later) and 20
(earlier). -/
def w6es : List Expense :=
  [⟨"k1", "", 30, ⟨"c1", "Food"⟩, ⟨2024, 1, 3⟩⟩,
   ⟨"k0", "", 20, ⟨"c1", "Food"⟩, ⟨2024, 0, 3⟩⟩]

/-- C6 witness: a zero previous total suppresses the analyzer's tip, and
a nonzero previous bucket gives the page the finite formula value. -/
theorem comparison_guard_amended_witness :
    monthComparisonTip 5 0 = none ∧
    pageComparison w6es (2024, 1)
      = some (some ((sumAmounts (monthBucket w6es (2024, 1))
          - sumAmounts (monthBucket w6es (2024, 0)))
        / sumAmounts (monthBucket w6es (2024, 0)) * 100)) := by
  have h := comparison_guard_amended 5 0 w6es (2024, 1) (2024, 0)
  refine ⟨h.1 le_rfl, h.2.2.1 rfl ?_⟩
  rw [show sumAmounts (monthBucket w6es (2024, 0)) = 20 by
    simp [monthBucket, monthKey, sumAmounts, w6es]]
  norm_num

/-! ## C9: the current-week chart starts its week on Monday -/

/-- C9: the computed week start is always a Monday, is today itself when
today is a Monday, and the chart's 7 generated days are consecutive and
contain today. -/
theorem weekStart_monday_spec (today : ℤ) :
    jsWeekday (weekStart today) = 1 ∧
    (jsWeekday today = 1 → weekStart today = today) ∧
    (jsWeekday today = 0 → weekStart today = today - 6) ∧
    (jsWeekday today ≠ 0 → jsWeekday today ≠ 1 →
      weekStart today = today - (jsWeekday today - 1)) ∧
    weekStart today ≤ today ∧ today < weekStart today + 7 ∧
    (weekDays (weekStart today)).length = 7 ∧
    today ∈ weekDays (weekStart today) := by
  have h1 : weekStart today ≤ today := by
    simp only [weekStart, daysToSubtract, jsWeekday]
    split_ifs <;> omega
  have h2 : today < weekStart today + 7 := by
    simp only [weekStart, daysToSubtract, jsWeekday]
    split_ifs <;> omega
  refine ⟨?_, ?_, ?_, ?_, h1, h2, ?_, ?_⟩
  · simp only [jsWeekday, weekStart, daysToSubtract]
    split_ifs <;> omega
  · intro h
    simp only [jsWeekday] at h
    simp only [weekStart, daysToSubtract, jsWeekday, h, if_pos]
    omega
  · intro h
    simp only [jsWeekday] at h
    simp only [weekStart, daysToSubtract, jsWeekday]
    split_ifs <;> omega
  · intro h0 h1m
    simp only [jsWeekday] at h0 h1m
    simp only [weekStart, daysToSubtract, jsWeekday]
    split_ifs <;> omega
  · rfl
  · simp only [weekDays, List.mem_cons, List.not_mem_nil, or_false]
    omega

/-- C9 witness: day 4 (a Monday) is its own week start; day 20 (a
Wednesday) gets a week start that is a Monday. -/
theorem weekStart_monday_spec_witness :
    weekStart 4 = 4 ∧ jsWeekday (weekStart 20) = 1 :=
  ⟨(weekStart_monday_spec 4).2.1 (by decide), (weekStart_monday_spec 20).1⟩

/-! ## C10: the POST response's count and timestamp -/

/-- C10: the response's `expenseCount` is always the length of the
request's expense list — also on the cached path — while a cached
response's `timestamp` is the cached generation date. -/
theorem handlePost_spec (cache : Option CachedTips) (es : List Expense)
    (now : Timestamp) :
    (handlePost cache es now).1.expenseCount = es.length ∧
    ((handlePost cache es now).1.cached = true →
      ∃ c, cache = some c ∧
        (handlePost cache es now).1.timestamp = c.generatedDate) := by
  rcases cache with _ | c
  · exact ⟨rfl, fun h => by exact absurd h (by simp [handlePost])⟩
  · rcases hb : shouldRegenerateTips (some c) es now.date with _ | _
    · refine ⟨?_, fun _ => ⟨c, rfl, ?_⟩⟩ <;> simp [handlePost, hb]
    · refine ⟨?_, fun h => absurd h ?_⟩ <;> simp [handlePost, hb]

/-- The cached generation timestamp of the concrete cache entry. -/
def w10gen : Timestamp := ⟨⟨2024, 4, 10⟩, 111⟩

/-- A cache entry generated at `w10gen` from 3 expenses. -/
def w10cache : CachedTips := ⟨[], w10gen, 3⟩

/-- A request arriving later the same day. -/
def w10now : Timestamp := ⟨⟨2024, 4, 10⟩, 999⟩

/-- A request carrying 4 expenses (drift 1 from the cached count). -/
def w10es : List Expense := [w8e1, w8e2, w8e3, w8e1]

/-- C10 witness: a same-day request with a small count drift is served
from the cache, reporting the request's count 4 and the cached
generation timestamp. -/
theorem handlePost_spec_witness :
    (handlePost (some w10cache) w10es w10now).1.expenseCount = 4 ∧
    (handlePost (some w10cache) w10es w10now).1.timestamp = w10gen := by
  have h := handlePost_spec (some w10cache) w10es w10now
  have hc : (handlePost (some w10cache) w10es w10now).1.cached = true := rfl
  obtain ⟨c, hcc, ht⟩ := h.2 hc
  refine ⟨by rw [h.1]; rfl, ?_⟩
  injection hcc with hcc
  rw [ht, ← hcc]
  rfl

/-! ## C1: the analyzer returns at most 3 tips, ranked and stable -/

theorem mem_insertDesc (t : AITip) :
    ∀ l x, x ∈ insertDesc t l ↔ x = t ∨ x ∈ l := by
  intro l
  induction l with
  | nil => simp [insertDesc]
  | cons h rest ih =>
    intro x
    simp only [insertDesc]
    split
    · rw [List.mem_cons, ih, List.mem_cons]
      tauto
    · rw [List.mem_cons, List.mem_cons]

theorem length_insertDesc (t : AITip) :
    ∀ l, (insertDesc t l).length = l.length + 1 := by
  intro l
  induction l with
  | nil => rfl
  | cons h rest ih =>
    simp only [insertDesc]
    split
    · simp [ih]
    · simp

theorem length_sortTipsDesc (l : List AITip) :
    (sortTipsDesc l).length = l.length := by
  induction l with
  | nil => rfl
  | cons h t ih =>
    simp only [sortTipsDesc, List.foldr_cons] at *
    rw [length_insertDesc, ih]
    rfl

theorem pairwise_insertDesc (t : AITip) :
    ∀ l, List.Pairwise (fun a b => impactOrder b.impact ≤ impactOrder a.impact) l →
      List.Pairwise (fun a b => impactOrder b.impact ≤ impactOrder a.impact)
        (insertDesc t l) := by
  intro l
  induction l with
  | nil => intro _; simp [insertDesc]
  | cons h rest ih =>
    intro hp
    rcases List.pairwise_cons.mp hp with ⟨hh, hrest⟩
    simp only [insertDesc]
    split
    · rename_i hlt
      refine List.pairwise_cons.mpr ⟨?_, ih hrest⟩
      intro x hx
      rcases (mem_insertDesc t rest x).mp hx with rfl | hxr
      · exact le_of_lt hlt
      · exact hh x hxr
    · rename_i hge
      push_neg at hge
      refine List.pairwise_cons.mpr ⟨?_, hp⟩
      intro x hx
      rcases List.mem_cons.mp hx with rfl | hxr
      · exact hge
      · exact le_trans (hh x hxr) hge

theorem pairwise_sortTipsDesc (l : List AITip) :
    List.Pairwise (fun a b => impactOrder b.impact ≤ impactOrder a.impact)
      (sortTipsDesc l) := by
  induction l with
  | nil => exact List.Pairwise.nil
  | cons h t ih =>
    simp only [sortTipsDesc, List.foldr_cons] at *
    exact pairwise_insertDesc h _ ih

theorem filter_insertDesc (t : AITip) (r : Nat) :
    ∀ l, (insertDesc t l).filter (fun x => impactOrder x.impact == r)
      = if impactOrder t.impact = r
        then t :: l.filter (fun x => impactOrder x.impact == r)
        else l.filter (fun x => impactOrder x.impact == r) := by
  intro l
  induction l with
  | nil =>
    by_cases h : impactOrder t.impact = r <;>
      simp [insertDesc, List.filter_cons, h]
  | cons h rest ih =>
    simp only [insertDesc]
    split
    · rename_i hlt
      by_cases hr : impactOrder h.impact = r
      · have htr : impactOrder t.impact ≠ r := by
          intro he
          rw [he, hr] at hlt
          exact lt_irrefl r hlt
        simp [List.filter_cons, hr, htr, ih]
      · simp [List.filter_cons, hr, ih]
    · by_cases htr : impactOrder t.impact = r <;>
        simp [List.filter_cons, htr]

theorem filter_sortTipsDesc (r : Nat) :
    ∀ l : List AITip, (sortTipsDesc l).filter (fun x => impactOrder x.impact == r)
      = l.filter (fun x => impactOrder x.impact == r) := by
  intro l
  induction l with
  | nil => rfl
  | cons h t ih =>
    simp only [sortTipsDesc, List.foldr_cons] at *
    rw [filter_insertDesc]
    by_cases hr : impactOrder h.impact = r
    · rw [if_pos hr, ih, List.filter_cons, if_pos (by simp [hr])]
    · rw [if_neg hr, ih, List.filter_cons, if_neg (by simp [hr])]

theorem rawTips_length_le (es : List Expense) (now : CalDate) :
    (rawTips es now).length ≤ 3 := by
  rw [rawTips]
  rcases highestCategoryTip (currentMonthExpenses es now) with _ | t <;>
    rcases monthComparisonTip (sumAmounts (currentMonthExpenses es now))
      (sumAmounts (previousMonthExpenses es now)) with _ | u <;>
    rcases smallPurchasesTip (currentMonthExpenses es now) with _ | v <;>
    simp

/-- C1: the analyzer emits exactly the tips the three rules discovered
(never padded, hence at most 3 after the `slice(0, 3)` truncation), in
an order that is non-increasing in impact rank and that preserves, inside
each impact class, the rule-evaluation order of `rawTips`. -/
theorem analyzeSpendingPatterns_ranked (es : List Expense) (now : CalDate) :
    (analyzeSpendingPatterns es now).length = (rawTips es now).length ∧
    (analyzeSpendingPatterns es now).length ≤ 3 ∧
    List.Pairwise (fun a b => impactOrder b.impact ≤ impactOrder a.impact)
      (analyzeSpendingPatterns es now) ∧
    ∀ r : Nat, (analyzeSpendingPatterns es now).filter
        (fun t => impactOrder t.impact == r)
      = (rawTips es now).filter (fun t => impactOrder t.impact == r) := by
  have hlen : (sortTipsDesc (rawTips es now)).length = (rawTips es now).length :=
    length_sortTipsDesc _
  have hle : (rawTips es now).length ≤ 3 := rawTips_length_le es now
  have htake : analyzeSpendingPatterns es now = sortTipsDesc (rawTips es now) := by
    rw [analyzeSpendingPatterns, List.take_of_length_le (by rw [hlen]; exact hle)]
  refine ⟨?_, ?_, ?_, fun r => ?_⟩
  · rw [htake, hlen]
  · rw [htake, hlen]
    exact hle
  · rw [htake]
    exact pairwise_sortTipsDesc _
  · rw [htake]
    exact filter_sortTipsDesc r _
